import Mathlib

/-!
Verification of the hybrid retrieval engine and streaming-inference
orchestrator of the dal-l documentation browser (src-tauri/src/ai.rs).

Modelling conventions:
* Rust strings are modelled as `List Char`; `str::split_whitespace` splits on
  the Unicode White_Space code points, dropping empty fragments.
* `f32`/`f64` scores are modelled in exact arithmetic: stored f32 embedding
  values (every f32 is a rational) as `ℚ`, computed scores as `ℝ`.  In this
  idealised model an arithmetic result is always finite, so the code's
  `is_finite` guard is always satisfied and does not appear explicitly.
* SQLite is an external collaborator: a database handle is a structure
  holding the relevant table contents, a flag for `table_exists`, an oracle
  for the external FTS5 MATCH engine, and an optional injected SQL error
  standing for a rusqlite failure during prepare/query.
* The async RAG pipeline is embedded as an explicit state machine over the
  cancelled-requests set, with the outcome of each external stage
  (settings, embedding, retrieval, streaming) supplied by an environment.
-/

namespace DalL

/-- The Unicode White_Space code points: the characters on which Rust's
`str::split_whitespace` splits. -/
def isRustWhitespace (c : Char) : Bool :=
  decide (c ∈ ['\x09', '\x0a', '\x0b', '\x0c', '\x0d', '\x20', '\u0085', '\u00a0',
    '\u1680', '\u2000', '\u2001', '\u2002', '\u2003', '\u2004', '\u2005',
    '\u2006', '\u2007', '\u2008', '\u2009', '\u200a', '\u2028', '\u2029',
    '\u202f', '\u205f', '\u3000'])

/-- Helper for `splitWhitespace`: walks the characters, accumulating the
current word (reversed) in `acc`. -/
def splitWhitespaceAux : List Char → List Char → List (List Char)
  | [], acc => if acc = [] then [] else [acc.reverse]
  | c :: cs, acc =>
    if isRustWhitespace c then
      if acc = [] then splitWhitespaceAux cs []
      else acc.reverse :: splitWhitespaceAux cs []
    else splitWhitespaceAux cs (c :: acc)

/-- Rust's `str::split_whitespace`: the maximal non-empty runs of
non-whitespace characters. -/
def splitWhitespace (s : List Char) : List (List Char) :=
  splitWhitespaceAux s []

/-- One term of `sanitise_fts5_query` (the body of the `map` closure in
ai.rs lines 149–167): detect and strip a trailing `*`, strip every `"`,
return the empty string if nothing is left, otherwise re-wrap in double
quotes with the `*` re-appended outside the quotes. -/
def sanitiseTerm (term : List Char) : List Char :=
  let isStar := term.getLast? = some '*'
  let base := if isStar then term.dropLast else term
  let clean := base.filter (fun c => c ≠ '"')
  if clean = [] then []
  else if isStar then '"' :: (clean ++ ['"', '*'])
  else '"' :: (clean ++ ['"'])

/-- ai.rs `sanitise_fts5_query`: split on whitespace, sanitise each term,
drop empty results, join with " OR ". -/
def sanitise_fts5_query (input : List Char) : List Char :=
  List.intercalate " OR ".toList
    (((splitWhitespace input).map sanitiseTerm).filter (fun s => s ≠ []))

/-- The fixed stop-word list of ai.rs `extract_keywords` (lines 479–485). -/
def STOP_WORDS : List (List Char) :=
  ["a", "an", "and", "are", "as", "at", "be", "by", "can", "do", "does",
   "for", "from", "has", "have", "how", "i", "in", "is", "it", "its", "my",
   "not", "of", "on", "or", "our", "should", "so", "that", "the", "their",
   "them", "then", "there", "these", "they", "this", "to", "was", "we",
   "what", "when", "where", "which", "who", "why", "will", "with", "would",
   "you", "your"].map String.toList

/-- Lowercase a word and strip the non-alphanumeric characters (the two
`map` steps of `extract_keywords`). -/
def cleanWord (w : List Char) : List Char :=
  (w.map Char.toLower).filter (fun c => c.isAlphanum)

/-- The `cleaned_terms` of ai.rs `extract_keywords`: whitespace-split,
lowercased, stripped to alphanumerics, shorter-than-2 terms dropped. -/
def cleaned_terms (query : List Char) : List (List Char) :=
  ((splitWhitespace query).map cleanWord).filter (fun w => 2 ≤ w.length)

/-- ai.rs `extract_keywords`: the cleaned terms that are not stop words;
if that filter removes everything, fall back to the first 6 cleaned terms. -/
def extract_keywords (query : List Char) : List (List Char) :=
  let keywords := (cleaned_terms query).filter (fun w => w ∉ STOP_WORDS)
  if keywords = [] then (cleaned_terms query).take 6 else keywords

/-- The survivor analysis of one sanitiser term: `none` when the term
sanitises to nothing, otherwise the cleaned body and whether a trailing
wildcard was present. -/
def termPart (term : List Char) : Option (List Char × Bool) :=
  let isStar := term.getLast? = some '*'
  let base := if isStar then term.dropLast else term
  let clean := base.filter (fun c => c ≠ '"')
  if clean = [] then none else some (clean, isStar)

/-- Re-wrap a surviving sanitiser term: the body in double quotes, the
wildcard re-appended outside the quotes. -/
def wrapPart (p : List Char × Bool) : List Char :=
  '"' :: (p.1 ++ ('"' :: (if p.2 then ['*'] else [])))

/-- models.rs `ScoredChunk`: a chunk projected with its retrieval score.
Rust's i32 ids are modelled as `Int`, the f64 score as `ℝ`. -/
structure ScoredChunk where
  id : Int
  document_id : Int
  chunk_index : Int
  content_text : List Char
  heading_context : List Char
  score : ℝ

/-- ai.rs `cosine_similarity` (lines 371–394), in exact real arithmetic:
`None` on length mismatch or empty input, `None` when either magnitude is
zero, otherwise the cosine of the angle between the two vectors. -/
noncomputable def cosine_similarity (a b : List ℚ) : Option ℝ :=
  if a.length ≠ b.length ∨ a = [] then none
  else
    let dot : ℝ := (((a.zip b).map (fun p => p.1 * p.2)).sum : ℚ)
    let mag_a : ℝ := ((a.map (fun x => x * x)).sum : ℚ)
    let mag_b : ℝ := ((b.map (fun y => y * y)).sum : ℚ)
    let denom := Real.sqrt mag_a * Real.sqrt mag_b
    if denom = 0 then none else some (dot / denom)

/-- One row of the `chunk_embeddings JOIN chunks` scan of `vector_search`,
with the little-endian f32 blob already decoded to its rational values. -/
structure EmbeddingRow where
  chunk_id : Int
  embedding : List ℚ
  document_id : Int
  chunk_index : Int
  content_text : List Char
  heading_context : List Char

/-- The database state visible to `vector_search`: whether the
`chunk_embeddings` table exists, the rows of the join scan, and an optional
injected rusqlite failure. -/
structure VecDB where
  has_chunk_embeddings : Bool
  rows : List EmbeddingRow
  sql_error : Option String

/-- Descending-score order: the comparator
`b.score.partial_cmp(&a.score)` used by `sort_by` in ai.rs. -/
def scoreGE (a b : ScoredChunk) : Prop := b.score ≤ a.score

noncomputable instance : DecidableRel scoreGE :=
  fun a b => inferInstanceAs (Decidable (b.score ≤ a.score))

instance : IsTotal ScoredChunk scoreGE := ⟨fun a b => le_total b.score a.score⟩

instance : IsTrans ScoredChunk scoreGE := ⟨fun _ _ _ hab hbc => le_trans hbc hab⟩

/-- The descending stable sort `scored.sort_by(|a, b| b.score.partial_cmp(&a.score) ...)`. -/
noncomputable def sortByScoreDesc (l : List ScoredChunk) : List ScoredChunk :=
  l.insertionSort scoreGE

/-- ai.rs `vector_search` (lines 404–475): empty result on `limit == 0`,
empty query embedding, or missing `chunk_embeddings` table; otherwise score
every row by cosine similarity, drop rows with absent or non-positive
similarity, sort descending, truncate to `limit`. -/
noncomputable def vector_search (db : VecDB) (query_embedding : List ℚ)
    (limit : ℕ) : Except String (List ScoredChunk) :=
  if limit = 0 ∨ query_embedding = [] then .ok []
  else if db.has_chunk_embeddings = false then .ok []
  else
    match db.sql_error with
    | some e => .error e
    | none =>
      let scored := db.rows.filterMap (fun r =>
        match cosine_similarity query_embedding r.embedding with
        | none => none
        | some score =>
          if score ≤ 0 then none
          else some { id := r.chunk_id, document_id := r.document_id,
                      chunk_index := r.chunk_index,
                      content_text := r.content_text,
                      heading_context := r.heading_context, score := score })
      .ok ((sortByScoreDesc scored).take limit)

/-- One row of the `chunks` table. -/
structure ChunkRow where
  id : Int
  document_id : Int
  chunk_index : Int
  content_text : List Char
  heading_context : List Char

/-- The database state visible to `fts_chunk_search`: whether the
`chunks_fts` table exists, the external FTS5 MATCH engine (returning, for a
MATCH expression, the matching chunk rows in rank order), the raw `chunks`
table for the LIKE fallback, and an optional injected rusqlite failure. -/
structure FtsDB where
  has_chunks_fts : Bool
  ftsQueryRows : List Char → List ChunkRow
  chunks : List ChunkRow
  sql_error : Option String

/-- The FTS5 MATCH expression built in ai.rs lines 529–533: each keyword
wrapped in double quotes, joined with " OR ". -/
def ftsMatchExpr (keywords : List (List Char)) : List Char :=
  List.intercalate " OR ".toList (keywords.map (fun k => '"' :: (k ++ ['"'])))

/-- SQLite `content LIKE '%kw%'`: ASCII-case-insensitive substring match. -/
def likeMatch (content kw : List Char) : Bool :=
  ((content.map Char.toLower).tails).any
    (fun t => (kw.map Char.toLower).isPrefixOf t)

/-- ai.rs `fts_chunk_search` (lines 514–602): extract keywords (empty ⇒ no
results); on the indexed path run the MATCH query and score every hit 0.5;
on the LIKE fallback filter chunks whose content contains some keyword and
score every hit 0.3. -/
def fts_chunk_search (db : FtsDB) (query : List Char) (limit : ℕ) :
    Except String (List ScoredChunk) :=
  let keywords := extract_keywords query
  if keywords = [] then .ok []
  else
    match db.sql_error with
    | some e => .error e
    | none =>
      if db.has_chunks_fts then
        .ok (((db.ftsQueryRows (ftsMatchExpr keywords)).take limit).map
          (fun r => { id := r.id, document_id := r.document_id,
                      chunk_index := r.chunk_index,
                      content_text := r.content_text,
                      heading_context := r.heading_context,
                      score := 0.5 }))
      else
        .ok (((db.chunks.filter
            (fun r => keywords.any (fun k => likeMatch r.content_text k))).take limit).map
          (fun r => { id := r.id, document_id := r.document_id,
                      chunk_index := r.chunk_index,
                      content_text := r.content_text,
                      heading_context := r.heading_context,
                      score := 0.3 }))

/-- Bool membership test used to model `HashMap::get_mut`/`contains_key`
on the merge map keyed by chunk id. -/
def hasId : List ScoredChunk → Int → Bool
  | [], _ => false
  | x :: xs, i => x.id == i || hasId xs i

/-- `merged.insert(chunk.id, chunk)` of the vector loop (ai.rs line 628):
replace the entry with the same id, or append. -/
def insertMerge (m : List ScoredChunk) (c : ScoredChunk) : List ScoredChunk :=
  if hasId m c.id then m.map (fun x => if x.id = c.id then c else x)
  else m ++ [c]

/-- The agreement bonus `existing.score += 0.35` of ai.rs line 632. -/
def bumpChunk (c : ScoredChunk) : ScoredChunk := { c with score := c.score + 0.35 }

/-- The FTS-only floor `chunk.score = chunk.score.max(0.35)` of ai.rs line 634. -/
def floorChunk (c : ScoredChunk) : ScoredChunk := { c with score := max c.score 0.35 }

/-- The FTS loop body (ai.rs lines 630–637): a chunk already present from
vector search gets +0.35; an FTS-only chunk is inserted with score
`max(score, 0.35)`. -/
def ftsMerge (m : List ScoredChunk) (c : ScoredChunk) : List ScoredChunk :=
  if hasId m c.id then m.map (fun x => if x.id = c.id then bumpChunk x else x)
  else m ++ [floorChunk c]

/-- The merge map of `hybrid_search` (ai.rs lines 626–637), as an
association list in insertion order: the vector results inserted first,
then the FTS results folded in. -/
def mergeResults (vector_results fts_results : List ScoredChunk) :
    List ScoredChunk :=
  fts_results.foldl ftsMerge (vector_results.foldl insertMerge [])

/-- The fused ranking of `hybrid_search` before truncation (ai.rs lines
639–644): the merged chunks sorted descending by score. -/
noncomputable def fuseRanked (vector_results fts_results : List ScoredChunk) :
    List ScoredChunk :=
  sortByScoreDesc (mergeResults vector_results fts_results)

/-- The database state visible to `hybrid_search`. -/
structure RagDB where
  vec : VecDB
  fts : FtsDB

/-- ai.rs `hybrid_search` (lines 605–647): empty on `limit == 0`; vector
search capped at 20 with errors degraded to no vector results; FTS search
capped at 20 with errors propagated; merge, sort descending, truncate. -/
noncomputable def hybrid_search (db : RagDB) (query_embedding : List ℚ)
    (query_text : List Char) (limit : ℕ) : Except String (List ScoredChunk) :=
  if limit = 0 then .ok []
  else
    let vector_results := match vector_search db.vec query_embedding 20 with
      | .ok v => v
      | .error _ => []
    match fts_chunk_search db.fts query_text 20 with
    | .error e => .error e
    | .ok fts_results =>
      .ok ((fuseRanked vector_results fts_results).take limit)

/-- The per-event delta computation of `stream_gemini` (ai.rs lines
1169–1173): if the previously emitted text is an exact prefix of the new
cumulative text, take the remainder; otherwise take the whole new text. -/
def geminiDelta (emitted text : List Char) : List Char :=
  if emitted.isPrefixOf text then text.drop emitted.length else text

/-- The chunks `stream_gemini` emits for a sequence of cumulative texts,
starting from the accumulated `emitted`: empty deltas are skipped, emitted
deltas are appended to the accumulator (ai.rs lines 1174–1188). -/
def geminiChunksAux : List Char → List (List Char) → List (List Char)
  | _, [] => []
  | emitted, t :: ts =>
    let delta := geminiDelta emitted t
    if delta = [] then geminiChunksAux emitted ts
    else delta :: geminiChunksAux (emitted ++ delta) ts

/-- The chunks `stream_gemini` emits for a whole stream of cumulative
texts (the `emitted_text` accumulator starts empty, ai.rs line 1140). -/
def geminiChunks (texts : List (List Char)) : List (List Char) :=
  geminiChunksAux [] texts

/-- Longest common prefix of two character lists (used to state the
spec's "longest-common-prefix subtraction"). -/
def lcp : List Char → List Char → List Char
  | a :: as, b :: bs => if a = b then a :: lcp as bs else []
  | _, _ => []

/-- Modelled from the spec: the "longest-common-prefix subtraction" of
§4.8 — the new cumulative text minus its longest common prefix with the
previously emitted text. -/
def lcpDelta (prev text : List Char) : List Char :=
  text.drop (lcp prev text).length

/-- Outcome of one `stream_<provider>` call, as observable on the
cancelled-requests set: the stream functions clear the request id on their
normal terminal paths (done sentinel, EOF, observed cancellation) and
return early without clearing on a transport error. -/
inductive StreamOutcome where
  | completed
  | cancelled
  | failed (e : String)

/-- ai.rs `clear_cancel_request` (lines 116–122): remove the id from the
cancelled-requests set. -/
def clear_cancel_request (request_id : String) (s : List String) : List String :=
  s.filter (fun r => r ≠ request_id)

/-- ai.rs `cancel_request` (lines 109–114): insert the id into the
cancelled-requests set. -/
def cancel_request (request_id : String) (s : List String) : List String :=
  request_id :: s

/-- `stream_chat_response` as a transformer of the cancelled-requests set:
on `completed` and `cancelled` the provider stream functions emit a done
event and call `clear_cancel_request` before returning `Ok`; on `failed`
they return the error without touching the set. -/
def stream_chat_response_state (out : StreamOutcome) (request_id : String)
    (s : List String) : Except String Unit × List String :=
  match out with
  | .completed => (.ok (), clear_cancel_request request_id s)
  | .cancelled => (.ok (), clear_cancel_request request_id s)
  | .failed e => (.error e, s)

/-- The environment of one `ask_question_rag` run: the outcome of each
external stage.  `embedding` failure is tolerated (the pipeline falls back
to FTS-only retrieval); `retrieval` covers the database lock, the
hybrid/FTS search and `build_source_references`, whose errors propagate
with `?`.  `cancel_after_start` injects a concurrent `cancel_request` for
this id immediately after the pipeline's initial clear. -/
structure AskEnv where
  settings : Except String Unit
  embedding : Except String Unit
  retrieval : Except String Unit
  stream : StreamOutcome
  cancel_after_start : Bool

/-- ai.rs `ask_question_rag` (lines 1329–1378) as a transformer of the
cancelled-requests set: clear the id, (possibly suffer a concurrent
cancel,) load settings (`?`), generate the embedding (tolerated), run
retrieval (`?`), stream the response, and clear the id again if and only
if streaming returned an error. -/
def ask_question_rag (env : AskEnv) (request_id : String) (s0 : List String) :
    Except String Unit × List String :=
  let s1 := clear_cancel_request request_id s0
  let s2 := if env.cancel_after_start then cancel_request request_id s1 else s1
  match env.settings with
  | .error e => (.error e, s2)
  | .ok _ =>
    match env.retrieval with
    | .error e => (.error e, s2)
    | .ok _ =>
      match stream_chat_response_state env.stream request_id s2 with
      | (.error e, s3) => (.error e, clear_cancel_request request_id s3)
      | (.ok _, s3) => (.ok (), s3)

/-! ### Helper lemmas -/

theorem sanitiseTerm_eq (t : List Char) :
    sanitiseTerm t = match termPart t with
      | none => []
      | some p => wrapPart p := by
  simp only [sanitiseTerm, termPart, wrapPart]
  split <;> split <;> simp_all

theorem sanitise_filter_map_eq (l : List (List Char)) :
    ((l.map sanitiseTerm).filter (fun s => s ≠ []))
      = (l.filterMap termPart).map wrapPart := by
  induction l with
  | nil => simp
  | cons t ts ih =>
    simp only [List.map_cons, List.filter_cons, List.filterMap_cons, sanitiseTerm_eq]
    cases h : termPart t with
    | none => simpa using ih
    | some p => simpa [wrapPart] using ih

theorem termPart_clean_aux {base : List Char} {st : Bool} {p : List Char × Bool}
    (h : (if base.filter (fun c => c ≠ '"') = [] then (none : Option (List Char × Bool))
          else some (base.filter (fun c => c ≠ '"'), st)) = some p) :
    p.1 ≠ [] ∧ '"' ∉ p.1 := by
  split at h
  · simp at h
  · rename_i hne
    injection h with h
    subst h
    refine ⟨hne, fun hc => ?_⟩
    have h2 := (List.mem_filter.mp hc).2
    simp at h2

theorem termPart_clean {t : List Char} {p : List Char × Bool}
    (h : termPart t = some p) : p.1 ≠ [] ∧ '"' ∉ p.1 :=
  termPart_clean_aux (by simpa only [termPart] using h)

theorem alnum_not_rust_ws {c : Char} (h : c.isAlphanum = true) :
    isRustWhitespace c = false := by
  by_contra hws
  have hmem : isRustWhitespace c = true := by
    revert hws
    cases isRustWhitespace c <;> simp
  simp only [isRustWhitespace, decide_eq_true_eq, List.mem_cons,
    List.not_mem_nil, or_false] at hmem
  rcases hmem with rfl | rfl | rfl | rfl | rfl | rfl | rfl | rfl | rfl | rfl |
    rfl | rfl | rfl | rfl | rfl | rfl | rfl | rfl | rfl | rfl | rfl | rfl |
    rfl | rfl | rfl <;> simp at h

theorem mem_extract_keywords_mem_cleaned {q k : List Char}
    (h : k ∈ extract_keywords q) : k ∈ cleaned_terms q := by
  simp only [extract_keywords] at h
  split at h
  · exact List.take_subset 6 _ h
  · exact (List.mem_filter.mp h).1

theorem mem_cleaned_terms {q k : List Char} (h : k ∈ cleaned_terms q) :
    2 ≤ k.length ∧ ∀ c ∈ k, c.isAlphanum = true := by
  simp only [cleaned_terms] at h
  have h1 := List.mem_filter.mp h
  refine ⟨by simpa using h1.2, ?_⟩
  obtain ⟨w, _, rfl⟩ := List.mem_map.mp h1.1
  intro c hc
  exact (List.mem_filter.mp hc).2

/-! ### Claim theorems: text processing -/

/-- C5: `sanitise_fts5_query` maps the example "foo* bar\"baz" to
"\"foo\"* OR \"barbaz\"", maps empty input (and input reducing to only
empty terms) to the empty string, and in general produces the whitespace-
split surviving terms, each re-wrapped in double quotes with the wildcard
outside and with no quote character inside its quotes, joined by " OR ". -/
theorem sanitise_fts5_query_spec :
    sanitise_fts5_query "foo* bar\"baz".toList = "\"foo\"* OR \"barbaz\"".toList
    ∧ sanitise_fts5_query "".toList = []
    ∧ sanitise_fts5_query "\"\" *".toList = []
    ∧ ∀ input : List Char, ∃ parts : List (List Char × Bool),
        sanitise_fts5_query input
            = List.intercalate " OR ".toList (parts.map wrapPart)
          ∧ parts = (splitWhitespace input).filterMap termPart
          ∧ ∀ p ∈ parts, p.1 ≠ [] ∧ '"' ∉ p.1 := by
  refine ⟨by decide, by decide, by decide, fun input => ?_⟩
  refine ⟨(splitWhitespace input).filterMap termPart, ?_, rfl, ?_⟩
  · rw [sanitise_fts5_query, sanitise_filter_map_eq]
  · intro p hp
    obtain ⟨t, _, ht⟩ := List.mem_filterMap.mp hp
    exact termPart_clean ht

/-- C5 witness: the structural description instantiated at a concrete
input. -/
theorem sanitise_fts5_query_spec_witness :
    ∃ parts : List (List Char × Bool),
      sanitise_fts5_query "foo* bar\"baz".toList
          = List.intercalate " OR ".toList (parts.map wrapPart)
        ∧ parts = (splitWhitespace "foo* bar\"baz".toList).filterMap termPart
        ∧ ∀ p ∈ parts, p.1 ≠ [] ∧ '"' ∉ p.1 :=
  sanitise_fts5_query_spec.2.2.2 "foo* bar\"baz".toList

/-- C8: on a query whose cleaned terms are all stop words,
`extract_keywords` falls back to the first 6 cleaned terms (non-empty
whenever there is a cleaned term at all); and the spec's example
"what is this about" yields a non-empty keyword list. -/
theorem extract_keywords_stopword_fallback :
    (∀ q : List Char, (∀ t ∈ cleaned_terms q, t ∈ STOP_WORDS) →
        extract_keywords q = (cleaned_terms q).take 6
        ∧ (cleaned_terms q ≠ [] → extract_keywords q ≠ []))
    ∧ extract_keywords "what is this about".toList ≠ [] := by
  constructor
  · intro q h
    have hk : (cleaned_terms q).filter (fun w => w ∉ STOP_WORDS) = [] := by
      rw [List.filter_eq_nil_iff]
      intro a ha
      simpa using h a ha
    have he : extract_keywords q = (cleaned_terms q).take 6 := by
      rw [extract_keywords, hk]
      simp
    refine ⟨he, fun hne => ?_⟩
    rw [he]
    simp [List.take_eq_nil_iff, hne]
  · decide

/-- C8 witness: the fallback theorem applied to the all-stop-words query
"what is this". -/
theorem extract_keywords_stopword_fallback_witness :
    extract_keywords "what is this".toList
        = (cleaned_terms "what is this".toList).take 6
      ∧ (cleaned_terms "what is this".toList ≠ []
          → extract_keywords "what is this".toList ≠ []) :=
  extract_keywords_stopword_fallback.1 "what is this".toList (by decide)

/-- C10: every keyword produced by `extract_keywords` (fallback path
included) has length at least 2 and consists only of alphanumeric
characters, hence contains no double quote and no whitespace character, so
the MATCH expression of `fts_chunk_search` wraps only quote-free tokens. -/
theorem extract_keywords_tokens_safe :
    ∀ q : List Char, ∀ k ∈ extract_keywords q,
      2 ≤ k.length ∧ (∀ c ∈ k, c.isAlphanum = true) ∧ '"' ∉ k
        ∧ ∀ c ∈ k, isRustWhitespace c = false := by
  intro q k hk
  obtain ⟨hlen, halnum⟩ := mem_cleaned_terms (mem_extract_keywords_mem_cleaned hk)
  refine ⟨hlen, halnum, fun hq => ?_, fun c hc => alnum_not_rust_ws (halnum c hc)⟩
  have := halnum _ hq
  simp at this

/-- C10 witness: the safety property instantiated on the keyword
"deployment" extracted from a concrete query. -/
theorem extract_keywords_tokens_safe_witness :
    2 ≤ "deployment".toList.length
      ∧ (∀ c ∈ "deployment".toList, c.isAlphanum = true)
      ∧ '"' ∉ "deployment".toList
      ∧ ∀ c ∈ "deployment".toList, isRustWhitespace c = false :=
  extract_keywords_tokens_safe "deployment checklist".toList
    "deployment".toList (by decide)

/-! ### Claim theorems: cancellation bookkeeping (C4) -/

theorem not_mem_clear_cancel (request_id : String) (s : List String) :
    request_id ∉ clear_cancel_request request_id s := by
  intro h
  simp [clear_cancel_request, List.mem_filter] at h

/-- C4 counterexample: with a retrieval-stage error and a cancel request
inserted right after the pipeline's initial clear, `ask_question_rag`
returns the error with the request id still in the cancelled set. -/
theorem ask_question_rag_cancel_leak :
    (ask_question_rag ⟨.ok (), .ok (), .error "search failed", .completed, true⟩
        "r1" []).1 = .error "search failed"
    ∧ "r1" ∈ (ask_question_rag ⟨.ok (), .ok (), .error "search failed",
        .completed, true⟩ "r1" []).2 := by
  constructor
  · rfl
  · show "r1" ∈ ["r1"]
    exact List.mem_singleton.mpr rfl

/-- C4 amended: the request id is guaranteed to be absent from the
cancelled set at return (i) whenever the pipeline reaches the streaming
stage — on stream completion, observed cancellation, and stream error
alike, even against a cancel inserted after the start — and (ii) in every
outcome when no cancel was inserted after the start.  An error raised
before streaming (settings load or retrieval) does not re-clear, which is
what the counterexample exploits. -/
theorem ask_question_rag_clear :
    ∀ (env : AskEnv) (request_id : String) (s0 : List String),
      ((env.settings = .ok () ∧ env.retrieval = .ok ()) →
          request_id ∉ (ask_question_rag env request_id s0).2)
      ∧ (env.cancel_after_start = false →
          request_id ∉ (ask_question_rag env request_id s0).2) := by
  intro env request_id s0
  constructor
  · rintro ⟨hs, hr⟩
    simp only [ask_question_rag, hs, hr]
    cases env.stream with
    | completed => exact not_mem_clear_cancel _ _
    | cancelled => exact not_mem_clear_cancel _ _
    | failed e => exact not_mem_clear_cancel _ _
  · intro hno
    simp only [ask_question_rag, hno, Bool.false_eq_true, if_false]
    cases env.settings with
    | error e => exact not_mem_clear_cancel _ _
    | ok u =>
      cases env.retrieval with
      | error e => exact not_mem_clear_cancel _ _
      | ok u' =>
        cases env.stream with
        | completed => exact not_mem_clear_cancel _ _
        | cancelled => exact not_mem_clear_cancel _ _
        | failed e => exact not_mem_clear_cancel _ _

/-- C4 witness: both guarantees instantiated on concrete environments. -/
theorem ask_question_rag_clear_witness :
    "r1" ∉ (ask_question_rag ⟨.ok (), .ok (), .ok (), .failed "boom", true⟩
        "r1" ["r1"]).2
    ∧ "r2" ∉ (ask_question_rag ⟨.error "no settings", .ok (), .ok (),
        .completed, false⟩ "r2" ["r2"]).2 :=
  ⟨(ask_question_rag_clear ⟨.ok (), .ok (), .ok (), .failed "boom", true⟩
      "r1" ["r1"]).1 ⟨rfl, rfl⟩,
   (ask_question_rag_clear ⟨.error "no settings", .ok (), .ok (),
      .completed, false⟩ "r2" ["r2"]).2 rfl⟩

/-! ### Claim theorems: Gemini streaming delta (C9) -/

/-- C9 counterexample: on the cumulative texts "ab" then "ax" the code
emits "ab" then the whole "ax" (the previous emission is not a prefix, so
no longest-common-prefix subtraction happens), while LCP subtraction
would emit "x"; the concatenation "abax" duplicates the "a". -/
theorem gemini_delta_not_lcp :
    geminiChunks ["ab".toList, "ax".toList] = ["ab".toList, "ax".toList]
    ∧ lcpDelta "ab".toList "ax".toList = "x".toList
    ∧ "ax".toList ≠ "x".toList
    ∧ (geminiChunks ["ab".toList, "ax".toList]).flatten = "abax".toList := by
  refine ⟨by decide, by decide, by decide, by decide⟩

theorem gemini_aux_join (ts : List (List Char)) :
    ∀ emitted : List Char, List.Chain' (· <+: ·) (emitted :: ts) →
      emitted ++ (geminiChunksAux emitted ts).flatten = (emitted :: ts).getLastD [] := by
  induction ts with
  | nil => intro emitted _; simp [geminiChunksAux]
  | cons t ts ih =>
    intro emitted hchain
    have h1 : emitted <+: t := (List.chain'_cons.mp hchain).1
    have h2 : List.Chain' (· <+: ·) (t :: ts) := (List.chain'_cons.mp hchain).2
    obtain ⟨s, rfl⟩ := h1
    have hdelta : geminiDelta emitted (emitted ++ s) = s := by
      simp [geminiDelta, List.isPrefixOf_iff_prefix, List.drop_left]
    by_cases hs : s = []
    · subst hs
      rw [List.append_nil] at h2 ⊢
      rw [List.append_nil] at hdelta
      simp only [geminiChunksAux, hdelta, if_pos]
      rw [ih emitted h2]
      simp [List.getLastD_cons]
    · simp only [geminiChunksAux, hdelta, if_neg hs, List.flatten_cons]
      rw [← List.append_assoc, ih (emitted ++ s) h2]
      simp [List.getLastD_cons]

/-- C9 amended: the per-event chunk is the new cumulative text minus the
previously emitted text when the latter is an exact prefix of it, and the
entire new cumulative text otherwise; consequently over a monotone stream
(each cumulative text extending the previous one) the concatenation of
emitted chunks is exactly the final cumulative text, with no duplicated
content. -/
theorem gemini_delta_spec :
    (∀ emitted text : List Char, emitted <+: text →
        geminiDelta emitted text = text.drop emitted.length)
    ∧ (∀ emitted text : List Char, ¬ emitted <+: text →
        geminiDelta emitted text = text)
    ∧ ∀ texts : List (List Char), List.Chain' (· <+: ·) texts →
        (geminiChunks texts).flatten = texts.getLastD [] := by
  refine ⟨?_, ?_, ?_⟩
  · intro emitted text h
    simp [geminiDelta, List.isPrefixOf_iff_prefix, h]
  · intro emitted text h
    simp [geminiDelta, List.isPrefixOf_iff_prefix, h]
  · intro texts hchain
    cases texts with
    | nil => simp [geminiChunks, geminiChunksAux]
    | cons t ts =>
      have hc : List.Chain' (· <+: ·) ([] :: t :: ts) :=
        List.chain'_cons.mpr ⟨List.nil_prefix, hchain⟩
      have := gemini_aux_join (t :: ts) [] hc
      simpa [geminiChunks] using this

/-- C9 witness: the monotone-stream guarantee on a concrete stream. -/
theorem gemini_delta_spec_witness :
    (geminiChunks ["a".toList, "ab".toList, "abc".toList]).flatten
      = ["a".toList, "ab".toList, "abc".toList].getLastD [] :=
  gemini_delta_spec.2.2 ["a".toList, "ab".toList, "abc".toList]
    (List.chain'_cons.mpr ⟨⟨"b".toList, by decide⟩,
      List.chain'_cons.mpr ⟨⟨"c".toList, by decide⟩, List.chain'_singleton _⟩⟩)

/-! ### Helper lemmas: the merge map of hybrid_search -/

theorem hasId_iff {m : List ScoredChunk} {i : Int} :
    hasId m i = true ↔ ∃ x ∈ m, x.id = i := by
  induction m with
  | nil => simp [hasId]
  | cons x xs ih =>
    simp only [hasId, Bool.or_eq_true, beq_iff_eq, ih, List.mem_cons]
    constructor
    · rintro (h | ⟨y, hy, hyi⟩)
      · exact ⟨x, Or.inl rfl, h⟩
      · exact ⟨y, Or.inr hy, hyi⟩
    · rintro ⟨y, (rfl | hy), hyi⟩
      · exact Or.inl hyi
      · exact Or.inr ⟨y, hy, hyi⟩

theorem hasId_eq_false_iff {m : List ScoredChunk} {i : Int} :
    hasId m i = false ↔ ∀ x ∈ m, x.id ≠ i := by
  rw [← Bool.not_eq_true, hasId_iff]
  push_neg
  rfl

theorem hasId_append (l₁ l₂ : List ScoredChunk) (i : Int) :
    hasId (l₁ ++ l₂) i = (hasId l₁ i || hasId l₂ i) := by
  induction l₁ with
  | nil => simp [hasId]
  | cons x xs ih => simp [hasId, ih, Bool.or_assoc]

theorem bumpChunk_id (c : ScoredChunk) : (bumpChunk c).id = c.id := rfl

theorem floorChunk_id (c : ScoredChunk) : (floorChunk c).id = c.id := rfl

theorem hasId_map_bump (m : List ScoredChunk) (j i : Int) :
    hasId (m.map (fun x => if x.id = j then bumpChunk x else x)) i = hasId m i := by
  induction m with
  | nil => simp
  | cons x xs ih =>
    simp only [List.map_cons, hasId, ih]
    congr 1
    split <;> rfl

theorem foldl_insertMerge (vec : List ScoredChunk) :
    ∀ m : List ScoredChunk, (∀ c ∈ vec, hasId m c.id = false) →
      (vec.map (fun c => c.id)).Nodup →
      vec.foldl insertMerge m = m ++ vec := by
  induction vec with
  | nil => intro m _ _; simp
  | cons c rest ih =>
    intro m habs hnd
    have hstep : insertMerge m c = m ++ [c] := by
      rw [insertMerge, habs c (List.mem_cons_self c rest)]
      simp
    have hnd' : (rest.map (fun c => c.id)).Nodup := (List.nodup_cons.mp hnd).2
    have hcid : c.id ∉ rest.map (fun c => c.id) := (List.nodup_cons.mp hnd).1
    have habs' : ∀ d ∈ rest, hasId (m ++ [c]) d.id = false := by
      intro d hd
      rw [hasId_append]
      have h1 : hasId m d.id = false := habs d (List.mem_cons_of_mem c hd)
      have h2 : hasId [c] d.id = false := by
        rw [hasId_eq_false_iff]
        intro x hx
        rw [List.mem_singleton.mp hx]
        intro hcontra
        exact hcid (hcontra ▸ List.mem_map.mpr ⟨d, hd, rfl⟩)
      rw [h1, h2]
      rfl
    rw [List.foldl_cons, hstep, ih (m ++ [c]) habs' hnd', List.append_assoc,
      List.singleton_append]

theorem foldl_ftsMerge (fts : List ScoredChunk) :
    ∀ m : List ScoredChunk, (fts.map (fun c => c.id)).Nodup →
      fts.foldl ftsMerge m
        = m.map (fun v => if hasId fts v.id then bumpChunk v else v)
          ++ (fts.filter (fun c => !hasId m c.id)).map floorChunk := by
  induction fts with
  | nil =>
    intro m _
    simp [hasId]
  | cons c rest ih =>
    intro m hnd
    have hnd' : (rest.map (fun c => c.id)).Nodup := (List.nodup_cons.mp hnd).2
    have hcid : c.id ∉ rest.map (fun c => c.id) := (List.nodup_cons.mp hnd).1
    have hcrest : hasId rest c.id = false := by
      rw [hasId_eq_false_iff]
      intro x hx hcontra
      exact hcid (hcontra ▸ List.mem_map.mpr ⟨x, hx, rfl⟩)
    rw [List.foldl_cons]
    by_cases hmc : hasId m c.id = true
    · have hmerge : ftsMerge m c = m.map (fun x => if x.id = c.id then bumpChunk x else x) := by
        rw [ftsMerge, hmc]
        simp
      rw [hmerge, ih _ hnd', List.map_map]
      congr 1
      · apply List.map_congr_left
        intro x _
        by_cases hx : x.id = c.id
        · have hr : hasId (c :: rest) c.id = true :=
            hasId_iff.mpr ⟨c, List.mem_cons_self c rest, rfl⟩
          simp [if_pos hx, bumpChunk_id, hx, hcrest, hr]
        · have hbeq : (c.id == x.id) = false := by
            rw [beq_eq_false_iff_ne]
            exact fun h => hx h.symm
          have hr : hasId (c :: rest) x.id = hasId rest x.id := by
            simp [hasId, hbeq]
          simp [if_neg hx, hr]
      · have hfun : (fun d : ScoredChunk =>
            !hasId (m.map (fun x => if x.id = c.id then bumpChunk x else x)) d.id)
              = (fun d => !hasId m d.id) :=
          funext fun d => by rw [hasId_map_bump]
        rw [hfun, List.filter_cons]
        simp [hmc]
    · have hmc' : hasId m c.id = false := Bool.eq_false_iff.mpr hmc
      have hmerge : ftsMerge m c = m ++ [floorChunk c] := by
        rw [ftsMerge, hmc']
        simp
      rw [hmerge, ih _ hnd', List.map_append]
      have hfc : (List.map (fun v => if hasId rest v.id then bumpChunk v else v)
          [floorChunk c]) = [floorChunk c] := by
        simp [floorChunk_id, hcrest]
      have hmap : m.map (fun v => if hasId rest v.id then bumpChunk v else v)
          = m.map (fun v => if hasId (c :: rest) v.id then bumpChunk v else v) := by
        apply List.map_congr_left
        intro x hx
        have hxid : x.id ≠ c.id := hasId_eq_false_iff.mp hmc' x hx
        have hbeq : (c.id == x.id) = false := by
          rw [beq_eq_false_iff_ne]
          exact fun h => hxid h.symm
        have hr : hasId (c :: rest) x.id = hasId rest x.id := by
          simp [hasId, hbeq]
        rw [hr]
      have hfil : rest.filter (fun d => !hasId (m ++ [floorChunk c]) d.id)
          = rest.filter (fun d => !hasId m d.id) := by
        apply List.filter_congr
        intro d hd
        have hdc : ((floorChunk c).id == d.id) = false := by
          rw [floorChunk_id, beq_eq_false_iff_ne]
          intro hcontra
          exact hcid (hcontra ▸ List.mem_map.mpr ⟨d, hd, rfl⟩)
        rw [hasId_append]
        simp [hasId, hdc]
      rw [hfc, hmap, hfil, List.filter_cons]
      simp [hmc', List.append_assoc]

/-- Exact shape of the merge map (ai.rs lines 626–637) when each input
result set has pairwise-distinct chunk ids: every vector chunk, bumped by
0.35 exactly when its id also occurs in the FTS results, followed by the
FTS-only chunks with their scores floored at 0.35. -/
theorem mergeResults_eq (vec fts : List ScoredChunk)
    (hv : (vec.map (fun c => c.id)).Nodup) (hf : (fts.map (fun c => c.id)).Nodup) :
    mergeResults vec fts
      = vec.map (fun v => if hasId fts v.id then bumpChunk v else v)
        ++ (fts.filter (fun c => !hasId vec c.id)).map floorChunk := by
  rw [mergeResults, foldl_insertMerge vec [] (fun c _ => rfl) hv, List.nil_append,
    foldl_ftsMerge fts vec hf]

/-! ### Claim theorems: hybrid fusion (C1, C2) -/

/-- C1 counterexample: a single FTS-only chunk with score 0.3 (the LIKE
fallback score) comes out of the fusion stage with score 0.35, not with
its score unmodified. -/
theorem fuseRanked_disjoint_counterexample :
    (fuseRanked [] [⟨1, 1, 0, [], [], 0.3⟩]).map ScoredChunk.score = [(0.35 : ℝ)]
    ∧ (0.35 : ℝ) ≠ (0.3 : ℝ) := by
  constructor
  · have h1 : mergeResults [] [⟨1, 1, 0, [], [], 0.3⟩]
        = [floorChunk ⟨1, 1, 0, [], [], 0.3⟩] := by
      simp [mergeResults, ftsMerge, hasId]
    have h2 : floorChunk (⟨1, 1, 0, [], [], 0.3⟩ : ScoredChunk)
        = ⟨1, 1, 0, [], [], 0.35⟩ := by
      simp only [floorChunk]
      congr 1
      rw [max_eq_right (by norm_num)]
    rw [fuseRanked, h1, h2]
    simp [sortByScoreDesc, List.insertionSort, List.orderedInsert]
  · norm_num

/-- C1 amended: when the vector and FTS result sets have pairwise-distinct
ids and share no chunk id, the fused list (before truncation to the limit)
is a permutation of the vector results (scores unmodified) together with
the FTS results with scores floored at 0.35 — i.e. an FTS score below 0.35
is raised to 0.35, everything else is unmodified — sorted descending by
score. -/
theorem fuseRanked_disjoint (vec fts : List ScoredChunk)
    (hv : (vec.map (fun c => c.id)).Nodup) (hf : (fts.map (fun c => c.id)).Nodup)
    (hdisj : ∀ c ∈ vec, ∀ d ∈ fts, c.id ≠ d.id) :
    (fuseRanked vec fts).Perm (vec ++ fts.map floorChunk)
    ∧ List.Sorted scoreGE (fuseRanked vec fts) := by
  have hmerge : mergeResults vec fts = vec ++ fts.map floorChunk := by
    rw [mergeResults_eq vec fts hv hf]
    congr 1
    · have hpt : ∀ v ∈ vec, (if hasId fts v.id then bumpChunk v else v) = v := by
        intro v hvm
        have : hasId fts v.id = false := by
          rw [hasId_eq_false_iff]
          intro d hd hcontra
          exact hdisj v hvm d hd hcontra.symm
        simp [this]
      exact (List.map_congr_left hpt).trans (List.map_id' vec)
    · congr 1
      rw [List.filter_eq_self]
      intro d hd
      have : hasId vec d.id = false := by
        rw [hasId_eq_false_iff]
        intro v hvm hcontra
        exact hdisj v hvm d hd hcontra
      simp [this]
  constructor
  · have hperm := List.perm_insertionSort scoreGE (mergeResults vec fts)
    have h2 : (mergeResults vec fts).Perm (vec ++ fts.map floorChunk) := by
      rw [hmerge]
    exact hperm.trans h2
  · exact List.sorted_insertionSort scoreGE (mergeResults vec fts)

/-- C1 witness: the disjoint-fusion theorem applied to concrete
one-element result sets with distinct ids. -/
theorem fuseRanked_disjoint_witness :
    (fuseRanked [⟨1, 1, 0, [], [], 0.9⟩] [⟨2, 1, 1, [], [], 0.5⟩]).Perm
        ([⟨1, 1, 0, [], [], 0.9⟩] ++ [(⟨2, 1, 1, [], [], 0.5⟩ : ScoredChunk)].map floorChunk)
    ∧ List.Sorted scoreGE (fuseRanked [⟨1, 1, 0, [], [], 0.9⟩] [⟨2, 1, 1, [], [], 0.5⟩]) :=
  fuseRanked_disjoint [⟨1, 1, 0, [], [], 0.9⟩] [⟨2, 1, 1, [], [], 0.5⟩]
    (by simp) (by simp) (by simp)

/-- C2: when each result set has pairwise-distinct chunk ids, a chunk id
present in both sets appears in the fused output (any truncation of the
sorted fused list, hence in what hybrid_search returns) with score equal
to its vector-search score plus 0.35. -/
theorem fuseRanked_agreement_bonus (vec fts : List ScoredChunk) (limit : ℕ)
    (hv : (vec.map (fun c => c.id)).Nodup) (hf : (fts.map (fun c => c.id)).Nodup)
    (cv cf : ScoredChunk) (hcv : cv ∈ vec) (hcf : cf ∈ fts) (hid : cv.id = cf.id) :
    ∀ c ∈ (fuseRanked vec fts).take limit, c.id = cv.id →
      c.score = cv.score + 0.35 := by
  intro c hc hcid
  have hc1 : c ∈ fuseRanked vec fts := List.take_subset limit _ hc
  rw [fuseRanked, sortByScoreDesc] at hc1
  have hc2 : c ∈ mergeResults vec fts :=
    (List.perm_insertionSort scoreGE (mergeResults vec fts)).mem_iff.mp hc1
  rw [mergeResults_eq vec fts hv hf] at hc2
  rcases List.mem_append.mp hc2 with hL | hR
  · obtain ⟨v, hvm, hveq⟩ := List.mem_map.mp hL
    have hvid : v.id = c.id := by
      rw [← hveq]
      split
      · rfl
      · rfl
    have hveqcv : v = cv :=
      List.inj_on_of_nodup_map hv hvm hcv (by rw [hvid, hcid])
    have hfts : hasId fts cv.id = true := hasId_iff.mpr ⟨cf, hcf, hid.symm⟩
    rw [← hveq, hveqcv, if_pos hfts]
    rfl
  · obtain ⟨d, hdm, hdeq⟩ := List.mem_map.mp hR
    have hdfil := List.mem_filter.mp hdm
    have hdid : d.id = c.id := by rw [← hdeq]; rfl
    have hvec : hasId vec d.id = true := by
      rw [hasId_iff]
      exact ⟨cv, hcv, by rw [hdid, hcid]⟩
    have := hdfil.2
    rw [hvec] at this
    simp at this

/-- C2 witness: the agreement bonus on concrete one-element result sets
sharing chunk id 1 with vector score 0.5. -/
theorem fuseRanked_agreement_bonus_witness :
    (⟨1, 1, 0, [], [], (0.5 : ℝ) + 0.35⟩ : ScoredChunk).score = (0.5 : ℝ) + 0.35 :=
  fuseRanked_agreement_bonus [⟨1, 1, 0, [], [], 0.5⟩] [⟨1, 1, 0, [], [], 0.5⟩] 8
    (by simp) (by simp) ⟨1, 1, 0, [], [], 0.5⟩ ⟨1, 1, 0, [], [], 0.5⟩
    (List.mem_singleton.mpr rfl) (List.mem_singleton.mpr rfl) rfl
    ⟨1, 1, 0, [], [], (0.5 : ℝ) + 0.35⟩ (List.mem_singleton.mpr rfl) rfl

/-! ### Claim theorems: vector search (C3, C7) and FTS scores (C6) -/

/-- C3: every successful `vector_search` result is sorted descending by
cosine similarity, has at most `limit` elements, and each element's score
is strictly positive and is the cosine similarity of some stored row —
rows with absent (mismatched-length, empty, or zero-magnitude) or
non-positive similarity never appear. -/
theorem vector_search_spec :
    ∀ (db : VecDB) (query_embedding : List ℚ) (limit : ℕ) (l : List ScoredChunk),
      vector_search db query_embedding limit = .ok l →
        List.Sorted scoreGE l ∧ l.length ≤ limit
        ∧ ∀ c ∈ l, 0 < c.score
            ∧ ∃ r ∈ db.rows, r.chunk_id = c.id
                ∧ cosine_similarity query_embedding r.embedding = some c.score := by
  intro db q limit l h
  rw [vector_search] at h
  split at h
  · injection h with h
    subst h
    exact ⟨List.sorted_nil, Nat.zero_le _, by simp⟩
  · split at h
    · injection h with h
      subst h
      exact ⟨List.sorted_nil, Nat.zero_le _, by simp⟩
    · split at h
      · exact absurd h (by simp)
      · injection h with h
        subst h
        refine ⟨?_, List.length_take_le limit _, ?_⟩
        · exact List.Pairwise.sublist (List.take_sublist limit _)
            (List.sorted_insertionSort scoreGE _)
        · intro c hc
          have hc1 : c ∈ sortByScoreDesc _ := List.take_subset limit _ hc
          rw [sortByScoreDesc] at hc1
          have hc2 := (List.perm_insertionSort scoreGE _).mem_iff.mp hc1
          obtain ⟨r, hr, heq⟩ := List.mem_filterMap.mp hc2
          cases hcos : cosine_similarity q r.embedding with
          | none =>
            rw [hcos] at heq
            dsimp only at heq
            exact absurd heq (by simp)
          | some s =>
            rw [hcos] at heq
            dsimp only at heq
            by_cases hle : s ≤ 0
            · rw [if_pos hle] at heq
              exact absurd heq (by simp)
            · rw [if_neg hle] at heq
              injection heq with heq
              subst heq
              exact ⟨lt_of_not_le hle, r, hr, rfl, hcos⟩

/-- C3 witness: the guarantees instantiated on a database without the
embeddings table, where the search succeeds with the empty result. -/
theorem vector_search_spec_witness :
    List.Sorted scoreGE ([] : List ScoredChunk) ∧ ([] : List ScoredChunk).length ≤ 3
    ∧ ∀ c ∈ ([] : List ScoredChunk), 0 < c.score
        ∧ ∃ r ∈ (⟨false, [], none⟩ : VecDB).rows, r.chunk_id = c.id
            ∧ cosine_similarity [1] r.embedding = some c.score :=
  vector_search_spec ⟨false, [], none⟩ [1] 3 [] rfl

/-- C7: on a missing `chunk_embeddings` table, `limit == 0`, or an empty
query embedding, `vector_search` returns `Ok` of the empty list — never an
error, even when the underlying SQL layer would fail. -/
theorem vector_search_graceful_empty :
    ∀ (db : VecDB) (query_embedding : List ℚ) (limit : ℕ),
      db.has_chunk_embeddings = false ∨ limit = 0 ∨ query_embedding = [] →
        vector_search db query_embedding limit = .ok [] := by
  intro db q limit h
  rw [vector_search]
  rcases h with h | h | h
  · by_cases h0 : limit = 0 ∨ q = []
    · rw [if_pos h0]
    · rw [if_neg h0, if_pos h]
  · rw [if_pos (Or.inl h)]
  · rw [if_pos (Or.inr h)]

/-- C7 witness: a database lacking the embeddings table (with an injected
SQL failure that is never reached) yields Ok-empty. -/
theorem vector_search_graceful_empty_witness :
    vector_search ⟨false, [⟨1, [1], 1, 0, [], []⟩], some "db exploded"⟩ [1] 5
      = .ok [] :=
  vector_search_graceful_empty ⟨false, [⟨1, [1], 1, 0, [], []⟩], some "db exploded"⟩
    [1] 5 (Or.inl rfl)

/-- C6: every chunk returned by `fts_chunk_search` carries score exactly
0.5 when the `chunks_fts` table exists and exactly 0.3 when it does not
(LIKE fallback). -/
theorem fts_chunk_search_scores :
    ∀ (db : FtsDB) (query : List Char) (limit : ℕ) (l : List ScoredChunk),
      fts_chunk_search db query limit = .ok l →
        (db.has_chunks_fts = true → ∀ c ∈ l, c.score = 0.5)
        ∧ (db.has_chunks_fts = false → ∀ c ∈ l, c.score = 0.3) := by
  intro db query limit l h
  rw [fts_chunk_search] at h
  split at h
  · injection h with h
    subst h
    exact ⟨fun _ => by simp, fun _ => by simp⟩
  · split at h
    · exact absurd h (by simp)
    · split at h
      · rename_i hfts
        injection h with h
        subst h
        refine ⟨fun _ c hc => ?_, fun hfalse => ?_⟩
        · obtain ⟨r, _, hr⟩ := List.mem_map.mp hc
          rw [← hr]
        · rw [hfts] at hfalse
          exact absurd hfalse (by simp)
      · rename_i hfts
        injection h with h
        subst h
        refine ⟨fun htrue c hc => ?_, fun _ c hc => ?_⟩
        · rw [htrue] at hfts
          exact absurd rfl hfts
        · obtain ⟨r, _, hr⟩ := List.mem_map.mp hc
          rw [← hr]

/-- C6 witness: both score constants observed on concrete databases — an
indexed one whose FTS engine returns one row, and an index-less one whose
chunks table contains one LIKE-matching row. -/
theorem fts_chunk_search_scores_witness :
    (⟨1, 1, 0, "deployment runbook checklist".toList, "ops".toList, (0.5 : ℝ)⟩
        : ScoredChunk).score = 0.5
    ∧ (⟨1, 1, 0, "deployment runbook checklist".toList, "ops".toList, (0.3 : ℝ)⟩
        : ScoredChunk).score = 0.3 :=
  ⟨(fts_chunk_search_scores
      ⟨true, fun _ => [⟨1, 1, 0, "deployment runbook checklist".toList, "ops".toList⟩],
        [], none⟩
      "deployment checklist".toList 5
      [⟨1, 1, 0, "deployment runbook checklist".toList, "ops".toList, (0.5 : ℝ)⟩]
      rfl).1 rfl _ (List.mem_singleton.mpr rfl),
   (fts_chunk_search_scores
      ⟨false, fun _ => [],
        [⟨1, 1, 0, "deployment runbook checklist".toList, "ops".toList⟩], none⟩
      "deployment checklist".toList 5
      [⟨1, 1, 0, "deployment runbook checklist".toList, "ops".toList, (0.3 : ℝ)⟩]
      rfl).2 rfl _ (List.mem_singleton.mpr rfl)⟩

end DalL

